import Mathlib

/-!
Shallow embedding of the `python-synth` audio engine
(`src/audio_engine/{waveforms,effects,synthesizer}.py`).

Python floats are modelled as exact rationals (`ℚ`) for all state-carrying
arithmetic; real-valued transcendental sample formulas (`sin`) are modelled
over `ℝ`.  Python dicts are modelled as insertion-ordered association lists
with dict update semantics (replace-in-place when the key exists, append
otherwise).  The `sounddevice` stream handle, printing, and the GUI layer are
outside the embedded core.
-/

set_option maxRecDepth 4000

namespace PySynth

/-- Python `int(...)` applied to an exact rational: truncation toward zero. -/
def pyInt (q : ℚ) : ℤ :=
  Int.tdiv q.num (q.den : ℤ)

/-- Python dict lookup (`d[k]` / `k in d`), first matching key. -/
def dictGet {κ α : Type} [DecidableEq κ] : List (κ × α) → κ → Option α
  | [], _ => none
  | kv :: rest, k => if kv.1 = k then some kv.2 else dictGet rest k

/-- Python dict update `d[k] = v`: replace in place if present, append otherwise. -/
def dictSet {κ α : Type} [DecidableEq κ] : List (κ × α) → κ → α → List (κ × α)
  | [], k, v => [(k, v)]
  | kv :: rest, k, v => if kv.1 = k then (k, v) :: rest else kv :: dictSet rest k v

/-- Envelope state strings of `ADSREnvelope.state`. -/
inductive EnvState : Type
  | attack
  | decay
  | sustain
  | release
  deriving DecidableEq, Repr

/-- `effects.ADSREnvelope`: per-voice envelope state (all fields of the
Python object, rates cached as in `set_parameters`). -/
structure ADSREnvelope : Type where
  sampleRate : ℚ
  attack : ℚ
  decay : ℚ
  sustain : ℚ
  release : ℚ
  attackRate : ℚ
  decayRate : ℚ
  releaseRate : ℚ
  currentTime : ℚ
  state : EnvState
  level : ℚ
  deriving DecidableEq, Repr

/-- `ADSREnvelope.set_parameters`: clamps attack to ≥ 0.01 and recomputes the
three per-sample rates. -/
def ADSREnvelope.setParameters (e : ADSREnvelope) (attack decay sustain release : ℚ) :
    ADSREnvelope :=
  let a := max (1/100) attack
  { e with
    attack := a, decay := decay, sustain := sustain, release := release,
    attackRate := 1 / (a * e.sampleRate),
    decayRate := (1 - sustain) / (decay * e.sampleRate),
    releaseRate := sustain / (release * e.sampleRate) }

/-- `ADSREnvelope.__init__`: `set_parameters(0.1, 0.1, 0.7, 0.2)`, time 0,
state `attack`, level 0. -/
def ADSREnvelope.init (sampleRate : ℚ) : ADSREnvelope :=
  (ADSREnvelope.mk sampleRate 0 0 0 0 0 0 0 0 EnvState.attack 0).setParameters
    (1/10) (1/10) (7/10) (1/5)

/-- One iteration of the per-sample loop body of `get_envelope` (the state
transition on `self.level` / `self.state`). -/
def envStep (e : ADSREnvelope) : ADSREnvelope :=
  match e.state with
  | EnvState.attack =>
    let l := e.level + e.attackRate
    if 1 ≤ l then { e with level := 1, state := EnvState.decay } else { e with level := l }
  | EnvState.decay =>
    let l := e.level - e.decayRate
    if l ≤ e.sustain then { e with level := e.sustain, state := EnvState.sustain }
    else { e with level := l }
  | EnvState.sustain => e
  | EnvState.release =>
    let l := e.level - e.releaseRate
    if l ≤ 0 then { e with level := 0 } else { e with level := l }

/-- The loop of `get_envelope`: produces `buffer_size` clamped samples
(`max(0, min(1, level))` after each step) and the final envelope state. -/
def getEnvelopeLoop : ℕ → ADSREnvelope → List ℚ × ADSREnvelope
  | 0, e => ([], e)
  | n + 1, e =>
    let e1 := envStep e
    let p := getEnvelopeLoop n e1
    (max 0 (min 1 e1.level) :: p.1, p.2)

/-- `ADSREnvelope.get_envelope(buffer_size, is_release)`: force the state to
`release` when a release is requested, then run the per-sample loop. -/
def ADSREnvelope.getEnvelope (e : ADSREnvelope) (bufferSize : ℕ) (isRelease : Bool) :
    List ℚ × ADSREnvelope :=
  let e0 := if isRelease ∧ e.state ≠ EnvState.release
            then { e with state := EnvState.release } else e
  getEnvelopeLoop bufferSize e0

/-- `synthesizer.Voice`: one sounding note. -/
structure Voice : Type where
  frequency : ℚ
  velocity : ℚ
  phase : ℚ
  isActive : Bool
  envelope : ADSREnvelope
  releaseStart : Bool
  deriving DecidableEq, Repr

/-- `Voice.__init__(frequency, velocity)`. -/
def Voice.init (sampleRate frequency velocity : ℚ) : Voice :=
  { frequency := frequency, velocity := velocity, phase := 0, isActive := true,
    envelope := ADSREnvelope.init sampleRate, releaseStart := false }

/-- The synthesizer's `adsr_params` dict (fixed four keys). -/
structure AdsrParams : Type where
  attack : ℚ
  decay : ℚ
  sustain : ℚ
  release : ℚ
  deriving DecidableEq, Repr

/-- `synthesizer.Synthesizer`: the engine state touched by the control surface
and the audio callback (the `sounddevice` stream handle is not modelled). -/
structure Synthesizer : Type where
  sampleRate : ℚ
  voices : List (ℚ × Voice)
  bufferSize : ℕ
  volume : ℚ
  waveformType : String
  effectsParams : List (String × ℚ)
  effectsEnabled : List (String × Bool)
  adsrParams : AdsrParams
  deriving DecidableEq, Repr

/-- `Synthesizer.__init__(sample_rate)`. -/
def initSynth (sampleRate : ℚ) : Synthesizer :=
  { sampleRate := sampleRate
    voices := []
    bufferSize := 1024
    volume := 1/2
    waveformType := "sine"
    effectsParams :=
      [("tremolo_rate", 5), ("tremolo_depth", 3/10), ("delay_time", 1/10),
       ("delay_feedback", 3/10), ("reverb_size", 3/10)]
    effectsEnabled := [("tremolo", false), ("delay", false), ("reverb", false)]
    adsrParams := { attack := 1/10, decay := 1/10, sustain := 7/10, release := 1/5 } }

/-- The `Voice` built by the note-on branch of `play_note`: a fresh voice whose
envelope receives a snapshot of the synthesizer's current `adsr_params`. -/
def noteOnVoice (s : Synthesizer) (frequency velocity : ℚ) : Voice :=
  let voice := Voice.init s.sampleRate frequency velocity
  { voice with
    envelope := voice.envelope.setParameters s.adsrParams.attack s.adsrParams.decay
      s.adsrParams.sustain s.adsrParams.release }

/-- `Synthesizer.play_note(frequency, state, velocity)`: note-on stores a fresh
voice under the frequency key; note-off sets `release_start` on the voice if
present and is a no-op otherwise. -/
def playNote (s : Synthesizer) (frequency : ℚ) (state : Bool) (velocity : ℚ) :
    Synthesizer :=
  if state then
    { s with voices := dictSet s.voices frequency (noteOnVoice s frequency velocity) }
  else
    match dictGet s.voices frequency with
    | some voice =>
      { s with voices := dictSet s.voices frequency { voice with releaseStart := true } }
    | none => s

/-- `Synthesizer.set_waveform`: only the four known shape names are accepted. -/
def setWaveform (s : Synthesizer) (waveformType : String) : Synthesizer :=
  if waveformType ∈ ["sine", "square", "triangle", "saw"] then
    { s with waveformType := waveformType }
  else s

/-- `Synthesizer.set_adsr`: clamps and stores the default envelope parameters. -/
def setAdsr (s : Synthesizer) (attack decay sustain release : ℚ) : Synthesizer :=
  { s with adsrParams :=
      { attack := max (1/100) attack
        decay := max (1/100) decay
        sustain := max 0 (min 1 sustain)
        release := max (1/100) release } }

/-- `Synthesizer.set_effect_param`: updates only known parameter keys. -/
def setEffectParam (s : Synthesizer) (param : String) (value : ℚ) : Synthesizer :=
  match dictGet s.effectsParams param with
  | some _ => { s with effectsParams := dictSet s.effectsParams param value }
  | none => s

/-- `Synthesizer.toggle_effect`: updates only known effect keys. -/
def toggleEffect (s : Synthesizer) (effect : String) (state : Bool) : Synthesizer :=
  match dictGet s.effectsEnabled effect with
  | some _ => { s with effectsEnabled := dictSet s.effectsEnabled effect state }
  | none => s

/-- `Synthesizer.get_active_voices`. -/
def getActiveVoices (s : Synthesizer) : ℕ :=
  s.voices.length

/-- The sample-time array built by `WaveformGenerator.generate_wave`:
`np.linspace(0, duration, int(sample_rate * duration), False)`, i.e.
`t_i = i * duration / n` — restarted at 0 on every call. -/
def waveTimes (sampleRate duration : ℚ) : List ℚ :=
  let n := (pyInt (sampleRate * duration)).toNat
  (List.range n).map fun (i : ℕ) => (i : ℚ) * duration / (n : ℚ)

/-- The time array the audio callback hands the waveform generator for every
voice of a tick: `generate_wave(freq, frames / sample_rate, ...)`.  It depends
on nothing but the sample rate and the frame count — in particular not on any
voice's persisted `phase`. -/
def callbackTimes (s : Synthesizer) (frames : ℕ) : List ℚ :=
  waveTimes s.sampleRate ((frames : ℚ) / s.sampleRate)

/-- The state-transition part of `Synthesizer._audio_callback` on the voice
pool: every active voice's envelope is advanced by one buffer, and a voice
whose release has started and whose whole envelope buffer sits below 0.001 is
deleted. -/
def renderTickVoices (s : Synthesizer) (frames : ℕ) : Synthesizer :=
  { s with voices := s.voices.filterMap fun fv =>
      if fv.2.isActive then
        let p := fv.2.envelope.getEnvelope frames fv.2.releaseStart
        if fv.2.releaseStart ∧ ∀ x ∈ p.1, x < 1/1000 then none
        else some (fv.1, { fv.2 with envelope := p.2 })
      else some fv }

/-- Release-phase runs: repeatedly call `get_envelope` with `is_release = True`
(as the audio callback does once a voice's `release_start` is set), collecting
the concatenated envelope output and the final envelope state. -/
def releaseRun (e : ADSREnvelope) : List ℕ → List ℚ × ADSREnvelope
  | [] => ([], e)
  | n :: rest =>
    let p := e.getEnvelope n true
    let q := releaseRun p.2 rest
    (p.1 ++ q.1, q.2)

/-- Pre-release runs: repeatedly call `get_envelope` with `is_release = False`
for the given buffer sizes, keeping the final envelope state. -/
def normalRun (e : ADSREnvelope) : List ℕ → ADSREnvelope
  | [] => e
  | n :: rest => normalRun (e.getEnvelope n false).2 rest

/-- `AudioEffects.apply_delay`'s shifted buffer
`delayed[delay_samples:] = audio[:-delay_samples]` as a list operation. -/
def shiftList (d : ℕ) (xs : List ℚ) : List ℚ :=
  (List.replicate d 0 ++ xs).take xs.length

/-- `delay_samples` as computed by `apply_delay`: `int(delay_time * sample_rate)`,
clamped to `len(audio) - 1` when it is not below the buffer length. -/
def delaySamples (sampleRate : ℚ) (audioLen : ℕ) (delayTime : ℚ) : ℤ :=
  let ds := pyInt (delayTime * sampleRate)
  if (audioLen : ℤ) ≤ ds then (audioLen : ℤ) - 1 else ds

/-- Elementwise `+=` on equal-length numpy buffers. -/
def listAdd (xs ys : List ℚ) : List ℚ :=
  List.zipWith (fun a b => a + b) xs ys

/-- `AudioEffects.apply_delay(audio, delay_time, feedback)`: three echo passes,
each shifting the ORIGINAL buffer by the same `delay_samples` offset with gain
`feedback ** (i+1)`, summed onto a copy of the input; the result is divided
by 2.  When `delay_samples` computes to 0 on a nonempty buffer the Python code
raises a numpy broadcast `ValueError` (`audio[:-0]` is empty); that failure is
modelled as `none`.  Negative delay times (numpy wraparound indexing) are
outside the modelled domain and also map to `none`. -/
def apply_delay (sampleRate : ℚ) (audio : List ℚ) (delayTime feedback : ℚ) :
    Option (List ℚ) :=
  let ds := delaySamples sampleRate audio.length delayTime
  if 1 ≤ ds ∨ audio = [] then
    let sh := shiftList ds.toNat audio
    some ((listAdd (listAdd (listAdd audio (sh.map (fun a => a * feedback ^ 1)))
      (sh.map (fun a => a * feedback ^ 2))) (sh.map (fun a => a * feedback ^ 3))).map
      (fun a => a / 2))
  else none

/-- Modelled from the claim wording (not the source): a delay whose echo `k`
(k = 1, 2, 3) is the input shifted by `k` TIMES the `delay_time` spacing and
scaled by `feedback ^ k`, with the sum divided by 2.  Used only to compare the
claimed shape of `apply_delay` against the code. -/
def delaySpecEchoes (sampleRate : ℚ) (audio : List ℚ) (delayTime feedback : ℚ) :
    List ℚ :=
  let d := (delaySamples sampleRate audio.length delayTime).toNat
  (listAdd (listAdd (listAdd audio ((shiftList (1 * d) audio).map (fun a => a * feedback ^ 1)))
    ((shiftList (2 * d) audio).map (fun a => a * feedback ^ 2)))
    ((shiftList (3 * d) audio).map (fun a => a * feedback ^ 3))).map (fun a => a / 2)

/-- The sample-time array of `AudioEffects.apply_tremolo`:
`np.linspace(0, len(audio)/sample_rate, len(audio))` — endpoint INCLUSIVE
(`t_i = i * (n/sample_rate) / (n - 1)` for `n ≥ 2`), restarted at 0 on every
call; the effect keeps no state across buffers. -/
def tremTimes (sampleRate : ℚ) (n : ℕ) : List ℚ :=
  (List.range n).map fun (i : ℕ) =>
    if n = 1 then 0 else (i : ℚ) * ((n : ℚ) / sampleRate) / ((n : ℚ) - 1)

noncomputable section

/-- `WaveformGenerator.generate_sine` sample value at time `t`. -/
def generate_sine (t frequency : ℝ) : ℝ :=
  0.5 * Real.sin (2 * Real.pi * frequency * t)

/-- `WaveformGenerator.generate_square` sample value at time `t`:
`0.5 * np.sign(np.sin(2πft))`, where `np.sign 0 = 0`. -/
def generate_square (t frequency : ℝ) : ℝ :=
  0.5 * Real.sign (Real.sin (2 * Real.pi * frequency * t))

/-- `WaveformGenerator.generate_triangle` sample value at time `t`
(`x % 1` on floats is the fractional part). -/
def generate_triangle (t frequency : ℝ) : ℝ :=
  0.5 * (2 * |2 * Int.fract (frequency * t) - 1| - 1)

/-- `WaveformGenerator.generate_saw` sample value at time `t`. -/
def generate_saw (t frequency : ℝ) : ℝ :=
  0.5 * (2 * Int.fract (frequency * t) - 1)

/-- `WaveformGenerator.generate_wave(frequency, duration, waveform_type)`:
build the time array (restarted at 0) and map the selected shape over it;
unknown shapes fall back to sine. -/
def generateWave (sampleRate frequency duration : ℚ) (waveformType : String) :
    List ℝ :=
  (waveTimes sampleRate duration).map fun (tq : ℚ) =>
    let t : ℝ := (tq : ℝ)
    if waveformType = "sine" then generate_sine t (frequency : ℝ)
    else if waveformType = "square" then generate_square t (frequency : ℝ)
    else if waveformType = "triangle" then generate_triangle t (frequency : ℝ)
    else if waveformType = "saw" then generate_saw t (frequency : ℝ)
    else generate_sine t (frequency : ℝ)

/-- The waveform slice the audio callback generates for a voice of frequency
`freq` in one tick: `generate_wave(freq, frames/sample_rate, waveform_type)`.
No argument carries the voice's persisted phase. -/
def callbackWave (s : Synthesizer) (frames : ℕ) (freq : ℚ) : List ℝ :=
  generateWave s.sampleRate freq ((frames : ℚ) / s.sampleRate) s.waveformType

/-- `AudioEffects.apply_tremolo(audio, rate, depth)`: multiply each sample by
`1 - depth/2 * (1 + sin(2π·rate·t))` with `t` drawn from `tremTimes` —
a time coordinate restarted at zero for each buffer. -/
def apply_tremolo (sampleRate : ℚ) (audio : List ℝ) (rate depth : ℝ) : List ℝ :=
  List.zipWith (fun a t => a * (1 - depth / 2 * (1 + Real.sin (2 * Real.pi * rate * t))))
    audio ((tremTimes sampleRate audio.length).map fun (q : ℚ) => (q : ℝ))

/-- Modelled from the claim wording (not the source): tremolo whose `t` for
sample `i` of a buffer starting at absolute stream sample `startSample` is
`(startSample + i) / sample_rate` — the sample's absolute time position in the
continuous output stream.  Used only to compare the claimed modulation against
the code. -/
def tremoloAbsoluteTime (sampleRate : ℚ) (startSample : ℕ) (audio : List ℝ)
    (rate depth : ℝ) : List ℝ :=
  (List.range audio.length).map fun (i : ℕ) =>
    audio.getD i 0 * (1 - depth / 2 * (1 + Real.sin (2 * Real.pi * rate *
      (((startSample + i : ℕ) : ℝ) / ((sampleRate : ℚ) : ℝ)))))

end

/-! ### Envelope state-machine lemmas -/

theorem envStep_releaseRate (e : ADSREnvelope) :
    (envStep e).releaseRate = e.releaseRate := by
  cases h : e.state <;> simp only [envStep, h] <;> split <;> rfl

theorem envStep_state_release (e : ADSREnvelope) (h : e.state = EnvState.release) :
    (envStep e).state = EnvState.release := by
  simp only [envStep, h]
  split <;> rfl

theorem envStep_clamp_le (e : ADSREnvelope) (h : e.state = EnvState.release)
    (hr : 0 ≤ e.releaseRate) :
    max 0 (min 1 (envStep e).level) ≤ max 0 (min 1 e.level) := by
  simp only [envStep, h]
  split
  · have h0 : max (0:ℚ) (min 1 0) = 0 := by norm_num
    simp only [h0]
    exact le_max_left _ _
  · exact max_le_max le_rfl (min_le_min le_rfl (sub_le_self _ hr))

theorem getEnvelopeLoop_releaseRate (n : ℕ) (e : ADSREnvelope) :
    (getEnvelopeLoop n e).2.releaseRate = e.releaseRate := by
  induction n generalizing e with
  | zero => rfl
  | succ n ih => simp only [getEnvelopeLoop]; rw [ih, envStep_releaseRate]

theorem getEnvelopeLoop_zero_level (n : ℕ) (e : ADSREnvelope)
    (hs : e.state = EnvState.release) (hl : e.level = 0) (hr : 0 ≤ e.releaseRate) :
    (getEnvelopeLoop n e).1 = List.replicate n 0 ∧
    (getEnvelopeLoop n e).2.state = EnvState.release ∧
    (getEnvelopeLoop n e).2.level = 0 := by
  induction n generalizing e with
  | zero => exact ⟨rfl, hs, hl⟩
  | succ n ih =>
    have h1 : (envStep e).state = EnvState.release := envStep_state_release e hs
    have h2 : (envStep e).level = 0 := by
      simp only [envStep, hs]
      rw [if_pos (by rw [hl]; linarith)]
    have h3 : 0 ≤ (envStep e).releaseRate := by rw [envStep_releaseRate]; exact hr
    obtain ⟨ha, hb, hc⟩ := ih (envStep e) h1 h2 h3
    refine ⟨?_, hb, hc⟩
    simp only [getEnvelopeLoop, ha, h2, List.replicate_succ]
    norm_num

theorem getEnvelopeLoop_release_chain (n : ℕ) (e : ADSREnvelope)
    (hs : e.state = EnvState.release) (hr : 0 ≤ e.releaseRate) :
    List.Chain' (fun x y => y ≤ x) (max 0 (min 1 e.level) :: (getEnvelopeLoop n e).1) ∧
    (getEnvelopeLoop n e).2.state = EnvState.release ∧
    (getEnvelopeLoop n e).1.getLastD (max 0 (min 1 e.level)) =
      max 0 (min 1 (getEnvelopeLoop n e).2.level) := by
  induction n generalizing e with
  | zero => exact ⟨List.chain'_singleton _, hs, rfl⟩
  | succ n ih =>
    have hs1 : (envStep e).state = EnvState.release := envStep_state_release e hs
    have hr1 : 0 ≤ (envStep e).releaseRate := by rw [envStep_releaseRate]; exact hr
    obtain ⟨hc, hst, hlast⟩ := ih (envStep e) hs1 hr1
    refine ⟨?_, ?_, ?_⟩
    · simp only [getEnvelopeLoop]
      rw [List.chain'_cons]
      exact ⟨envStep_clamp_le e hs hr, hc⟩
    · simp only [getEnvelopeLoop]
      exact hst
    · simp only [getEnvelopeLoop, List.getLastD_cons]
      exact hlast

/-- After `get_envelope(_, is_release=True)` the initial state seen by the
per-sample loop is `release` with the level and rates untouched. -/
theorem getEnvelope_true_eq (e : ADSREnvelope) (n : ℕ) :
    e.getEnvelope n true =
      getEnvelopeLoop n { e with state := EnvState.release } := by
  unfold ADSREnvelope.getEnvelope
  by_cases h : e.state = EnvState.release
  · rw [if_neg (by simp [h])]
    rw [← h]
  · rw [if_pos (by simp [h])]

theorem getEnvelope_release_props (e : ADSREnvelope) (n : ℕ) (hr : 0 ≤ e.releaseRate) :
    List.Chain' (fun x y => y ≤ x) (max 0 (min 1 e.level) :: (e.getEnvelope n true).1) ∧
    (e.getEnvelope n true).2.state = EnvState.release ∧
    (e.getEnvelope n true).2.releaseRate = e.releaseRate ∧
    (e.getEnvelope n true).1.getLastD (max 0 (min 1 e.level)) =
      max 0 (min 1 (e.getEnvelope n true).2.level) := by
  rw [getEnvelope_true_eq]
  obtain ⟨hc, hst, hlast⟩ :=
    getEnvelopeLoop_release_chain n { e with state := EnvState.release } rfl hr
  exact ⟨hc, hst, getEnvelopeLoop_releaseRate n _, hlast⟩

theorem getEnvelope_releaseRate (e : ADSREnvelope) (n : ℕ) (b : Bool) :
    (e.getEnvelope n b).2.releaseRate = e.releaseRate := by
  unfold ADSREnvelope.getEnvelope
  split <;> rw [getEnvelopeLoop_releaseRate]

theorem normalRun_releaseRate (bufs : List ℕ) (e : ADSREnvelope) :
    (normalRun e bufs).releaseRate = e.releaseRate := by
  induction bufs generalizing e with
  | nil => rfl
  | cons n rest ih =>
    simp only [normalRun]
    rw [ih, getEnvelope_releaseRate]

theorem getLast?_cons_eq {α : Type} (a : α) (l : List α) :
    (a :: l).getLast? = some (l.getLastD a) := by
  induction l generalizing a with
  | nil => rfl
  | cons b t ih => rw [List.getLast?_cons_cons, List.getLastD_cons, ih]

theorem getLastD_append {α : Type} (l1 l2 : List α) (d : α) :
    (l1 ++ l2).getLastD d = l2.getLastD (l1.getLastD d) := by
  induction l1 generalizing d with
  | nil => rfl
  | cons a t ih => rw [List.cons_append, List.getLastD_cons, List.getLastD_cons, ih]

theorem releaseRun_props (bufs : List ℕ) (e : ADSREnvelope) (hr : 0 ≤ e.releaseRate) :
    List.Chain' (fun x y => y ≤ x) (max 0 (min 1 e.level) :: (releaseRun e bufs).1) ∧
    (releaseRun e bufs).2.releaseRate = e.releaseRate ∧
    (releaseRun e bufs).1.getLastD (max 0 (min 1 e.level)) =
      max 0 (min 1 (releaseRun e bufs).2.level) ∧
    (bufs ≠ [] → (releaseRun e bufs).2.state = EnvState.release) := by
  induction bufs generalizing e with
  | nil => exact ⟨List.chain'_singleton _, rfl, rfl, fun h => absurd rfl h⟩
  | cons n rest ih =>
    obtain ⟨hc1, hst1, hrt1, hlast1⟩ := getEnvelope_release_props e n hr
    obtain ⟨hc2, hrt2, hlast2, hst2⟩ :=
      ih (e.getEnvelope n true).2 (by rw [hrt1]; exact hr)
    refine ⟨?_, ?_, ?_, ?_⟩
    · simp only [releaseRun]
      rw [show max 0 (min 1 e.level) :: ((e.getEnvelope n true).1 ++
            (releaseRun (e.getEnvelope n true).2 rest).1) =
          (max 0 (min 1 e.level) :: (e.getEnvelope n true).1) ++
            (releaseRun (e.getEnvelope n true).2 rest).1 from rfl]
      rw [List.chain'_append]
      refine ⟨hc1, (List.chain'_cons'.mp hc2).2, ?_⟩
      intro x hx y hy
      rw [getLast?_cons_eq] at hx
      simp only [Option.mem_def, Option.some.injEq] at hx
      subst hx
      rw [hlast1]
      exact (List.chain'_cons'.mp hc2).1 y hy
    · simp only [releaseRun]
      rw [hrt2, hrt1]
    · simp only [releaseRun]
      rw [getLastD_append, hlast1]
      exact hlast2
    · intro _
      cases hrest : rest with
      | nil =>
        subst hrest
        exact hst1
      | cons m t =>
        rw [hrest] at hst2
        exact hst2 (List.cons_ne_nil m t)

/-- The whole envelope buffer of a fresh voice released before its first
sample is identically 0. -/
theorem getEnvelope_true_zero (e : ADSREnvelope) (n : ℕ) (hl : e.level = 0)
    (hr : 0 ≤ e.releaseRate) :
    (e.getEnvelope n true).1 = List.replicate n 0 := by
  rw [getEnvelope_true_eq]
  exact (getEnvelopeLoop_zero_level n { e with state := EnvState.release } rfl hl hr).1

/-! ### Association-list (Python dict) lemmas -/

theorem dictGet_dictSet {κ α : Type} [DecidableEq κ] (l : List (κ × α)) (k : κ) (v : α) :
    dictGet (dictSet l k v) k = some v := by
  induction l with
  | nil => simp [dictGet, dictSet]
  | cons kv rest ih =>
    by_cases h : kv.1 = k
    · simp [dictSet, h, dictGet]
    · simp [dictSet, h, dictGet, ih]

theorem dictSet_dictSet {κ α : Type} [DecidableEq κ] (l : List (κ × α)) (k : κ) (v w : α) :
    dictSet (dictSet l k v) k w = dictSet l k w := by
  induction l with
  | nil => simp [dictSet]
  | cons kv rest ih =>
    by_cases h : kv.1 = k
    · simp [dictSet, h]
    · simp [dictSet, h, ih]

/-! ### C4: note-off is idempotent and total -/

/-- C4: note-off (`play_note(f, False)`) on an absent frequency key leaves the
synthesizer state unchanged and raises no error, and two consecutive note-offs
on the same key have no observable effect beyond the first. -/
theorem c4_note_off_idempotent_total (s : Synthesizer) (f : ℚ) :
    (dictGet s.voices f = none → playNote s f false 1 = s) ∧
    playNote (playNote s f false 1) f false 1 = playNote s f false 1 := by
  constructor
  · intro h
    simp [playNote, h]
  · cases hv : dictGet s.voices f with
    | none => simp [playNote, hv]
    | some voice =>
      simp only [playNote, Bool.false_eq_true, if_false, hv]
      rw [dictGet_dictSet]
      simp [dictSet_dictSet]

/-- Witness for C4 at a concrete input: the empty pool has no voice at 440 Hz,
and note-off there is the identity. -/
theorem c4_note_off_idempotent_total_witness :
    dictGet (initSynth 44100).voices 440 = none ∧
    playNote (initSynth 44100) 440 false 1 = initSynth 44100 := by
  have h : dictGet (initSynth 44100).voices 440 = none := by
    with_unfolding_all decide
  exact ⟨h, (c4_note_off_idempotent_total (initSynth 44100) 440).1 h⟩

/-! ### C7: envelope parameters are snapshotted at note-on -/

/-- C7: `set_adsr` leaves every already-created voice (the whole voice dict,
hence each stored envelope's parameters and rates) unchanged, and a voice
created afterwards snapshots the newly clamped parameters. -/
theorem c7_adsr_snapshot (s : Synthesizer) (a d su r f v : ℚ) :
    (setAdsr s a d su r).voices = s.voices ∧
    dictGet (playNote (setAdsr s a d su r) f true v).voices f =
      some (noteOnVoice (setAdsr s a d su r) f v) ∧
    (noteOnVoice (setAdsr s a d su r) f v).envelope.attack = max (1/100) a ∧
    (noteOnVoice (setAdsr s a d su r) f v).envelope.decay = max (1/100) d ∧
    (noteOnVoice (setAdsr s a d su r) f v).envelope.sustain = max 0 (min 1 su) ∧
    (noteOnVoice (setAdsr s a d su r) f v).envelope.release = max (1/100) r := by
  refine ⟨rfl, ?_, ?_, rfl, rfl, rfl⟩
  · simp [playNote, dictGet_dictSet]
  · show max (1/100) (max (1/100) a) = max (1/100) a
    rw [← max_assoc, max_self]

/-! ### C8: note-on keyed by frequency (code bug: same-pitch notes collapse) -/

/-- C8 (code bug): two note-ons at the same frequency with no intervening
removal leave a SINGLE voice in the pool — the dict is keyed by frequency, so
the second `play_note` overwrites the first voice instead of allocating a
second one under a fresh id (the claimed invariant expects 2 voices here). -/
theorem c8_same_frequency_note_on_replaces :
    getActiveVoices (playNote (playNote (initSynth 44100) 440 true 1) 440 true 1) = 1 ∧
    dictGet (playNote (playNote (initSynth 44100) 440 true 1) 440 true 1).voices 440 =
      some (noteOnVoice (playNote (initSynth 44100) 440 true 1) 440 1) := by
  constructor
  · with_unfolding_all decide
  · simp [getActiveVoices, playNote, dictGet_dictSet]

/-! ### C10: unrecognized control names are silent no-ops -/

/-- C10: `set_waveform` with an unknown shape name, `set_effect_param` with an
unknown parameter name, and `toggle_effect` with an unknown effect name all
leave the entire synthesizer state unchanged and raise no error. -/
theorem c10_unknown_control_names_noop (s : Synthesizer) (w p e : String)
    (x : ℚ) (b : Bool)
    (hw : w ∉ ["sine", "square", "triangle", "saw"])
    (hp : dictGet s.effectsParams p = none)
    (he : dictGet s.effectsEnabled e = none) :
    setWaveform s w = s ∧ setEffectParam s p x = s ∧ toggleEffect s e b = s := by
  refine ⟨?_, ?_, ?_⟩
  · simp [setWaveform, hw]
  · simp [setEffectParam, hp]
  · simp [toggleEffect, he]

/-- Witness for C10 at concrete unknown names. -/
theorem c10_unknown_control_names_noop_witness :
    ("noise" ∉ ["sine", "square", "triangle", "saw"] ∧
     dictGet (initSynth 44100).effectsParams "flanger_rate" = none ∧
     dictGet (initSynth 44100).effectsEnabled "chorus" = none) ∧
    (setWaveform (initSynth 44100) "noise" = initSynth 44100 ∧
     setEffectParam (initSynth 44100) "flanger_rate" 1 = initSynth 44100 ∧
     toggleEffect (initSynth 44100) "chorus" true = initSynth 44100) := by
  have hw : "noise" ∉ ["sine", "square", "triangle", "saw"] := by decide
  have hp : dictGet (initSynth 44100).effectsParams "flanger_rate" = none := by
    with_unfolding_all decide
  have he : dictGet (initSynth 44100).effectsEnabled "chorus" = none := by
    with_unfolding_all decide
  exact ⟨⟨hw, hp, he⟩,
    c10_unknown_control_names_noop (initSynth 44100) "noise" "flanger_rate" "chorus"
      1 true hw hp he⟩

/-- The note-off branch of `play_note` when the frequency key is present. -/
theorem playNote_off_voices (s : Synthesizer) (f : ℚ) (voice : Voice)
    (h : dictGet s.voices f = some voice) :
    (playNote s f false 1).voices =
      dictSet s.voices f { voice with releaseStart := true } := by
  simp only [playNote, Bool.false_eq_true, if_false, h]

/-! ### C3 / C9 shared facts about freshly created voices -/

/-- A voice created after `set_adsr` carries a non-negative release rate
(the clamped sustain level divided by a positive release-time · sample-rate
product). -/
theorem noteOnVoice_releaseRate_nonneg (s : Synthesizer) (a d su r f v : ℚ)
    (hsr : 0 < s.sampleRate) :
    0 ≤ (noteOnVoice (setAdsr s a d su r) f v).envelope.releaseRate := by
  have hrate0 : (noteOnVoice (setAdsr s a d su r) f v).envelope.releaseRate =
      max 0 (min 1 su) / (max (1/100) r * s.sampleRate) := rfl
  rw [hrate0]
  apply div_nonneg (le_max_left _ _)
  apply mul_nonneg _ hsr.le
  exact le_trans (by norm_num) (le_max_left (1/100) r)

/-! ### C9: requested release is absorbing and its output non-increasing -/

/-- C9: for a voice created through the public `set_adsr`/`play_note`
interface, after any run of pre-release buffers, every subsequent
`get_envelope` call with the release flag set leaves the envelope in the
`release` state (for every non-empty run of release buffers), and the
concatenated per-sample envelope output of the release phase is
non-increasing. -/
theorem c9_release_absorbing_and_monotone (s : Synthesizer) (a d su r f v : ℚ)
    (bufs0 bufs pre : List ℕ) (hsr : 0 < s.sampleRate) :
    dictGet (playNote (setAdsr s a d su r) f true v).voices f =
      some (noteOnVoice (setAdsr s a d su r) f v) ∧
    List.Chain' (fun x y => y ≤ x)
      (releaseRun (normalRun (noteOnVoice (setAdsr s a d su r) f v).envelope bufs0)
        bufs).1 ∧
    (pre ≠ [] →
      (releaseRun (normalRun (noteOnVoice (setAdsr s a d su r) f v).envelope bufs0)
        pre).2.state = EnvState.release) := by
  have hrun : 0 ≤ (normalRun (noteOnVoice (setAdsr s a d su r) f v).envelope
      bufs0).releaseRate := by
    rw [normalRun_releaseRate]
    exact noteOnVoice_releaseRate_nonneg s a d su r f v hsr
  refine ⟨by simp [playNote, dictGet_dictSet], ?_, ?_⟩
  · exact (List.chain'_cons'.mp (releaseRun_props bufs _ hrun).1).2
  · exact (releaseRun_props pre _ hrun).2.2.2

/-- Witness for C9 at a concrete input. -/
theorem c9_release_absorbing_and_monotone_witness :
    0 < (initSynth 8).sampleRate ∧
    (dictGet (playNote (setAdsr (initSynth 8) 1 1 (1/2) 1) 440 true 1).voices 440 =
      some (noteOnVoice (setAdsr (initSynth 8) 1 1 (1/2) 1) 440 1) ∧
     List.Chain' (fun x y => y ≤ x)
       (releaseRun (normalRun
         (noteOnVoice (setAdsr (initSynth 8) 1 1 (1/2) 1) 440 1).envelope [2]) [1, 2]).1 ∧
     (([2] : List ℕ) ≠ [] →
       (releaseRun (normalRun
         (noteOnVoice (setAdsr (initSynth 8) 1 1 (1/2) 1) 440 1).envelope [2]) [2]).2.state =
         EnvState.release)) := by
  have h : (0:ℚ) < (initSynth 8).sampleRate := by norm_num [initSynth]
  exact ⟨h, c9_release_absorbing_and_monotone (initSynth 8) 1 1 (1/2) 1 440 1 [2] [1, 2] [2] h⟩

/-! ### C3: immediate release decays to 0 and is pruned on the next tick -/

/-- C3: with ADSR parameters in the claimed ranges, a voice whose release is
requested immediately after note-on has an all-zero envelope buffer (its
level is 0 from the first sample on — well within the claimed bound of
ceil(release · sample_rate) ≥ 1 samples), and the next `render_tick` deletes
it from the voice pool. -/
theorem c3_immediate_release_pruned (s : Synthesizer) (a d su r f v : ℚ) (frames : ℕ)
    (ha1 : 1/100 ≤ a) (ha2 : a ≤ 5) (hd1 : 1/100 ≤ d) (hd2 : d ≤ 5)
    (hr1 : 1/100 ≤ r) (hr2 : r ≤ 5) (hsu1 : 0 ≤ su) (hsu2 : su ≤ 1)
    (hsr : 0 < s.sampleRate) (hempty : s.voices = []) :
    dictGet (playNote (playNote (setAdsr s a d su r) f true v) f false 1).voices f =
      some { noteOnVoice (setAdsr s a d su r) f v with releaseStart := true } ∧
    ((noteOnVoice (setAdsr s a d su r) f v).envelope.getEnvelope frames true).1 =
      List.replicate frames 0 ∧
    (1 : ℤ) ≤ ⌈r * s.sampleRate⌉ ∧
    (renderTickVoices (playNote (playNote (setAdsr s a d su r) f true v) f false 1)
      frames).voices = [] := by
  have hrate : 0 ≤ (noteOnVoice (setAdsr s a d su r) f v).envelope.releaseRate :=
    noteOnVoice_releaseRate_nonneg s a d su r f v hsr
  have hlevel : (noteOnVoice (setAdsr s a d su r) f v).envelope.level = 0 := rfl
  have henv : ((noteOnVoice (setAdsr s a d su r) f v).envelope.getEnvelope frames true).1 =
      List.replicate frames 0 :=
    getEnvelope_true_zero _ frames hlevel hrate
  have hvoices1 : (playNote (setAdsr s a d su r) f true v).voices =
      [(f, noteOnVoice (setAdsr s a d su r) f v)] := by
    simp only [playNote, if_pos]
    show dictSet (setAdsr s a d su r).voices f _ = _
    rw [show (setAdsr s a d su r).voices = s.voices from rfl, hempty]
    rfl
  have hget1 : dictGet (playNote (setAdsr s a d su r) f true v).voices f =
      some (noteOnVoice (setAdsr s a d su r) f v) := by
    rw [hvoices1]
    simp [dictGet]
  have hvoices2 : (playNote (playNote (setAdsr s a d su r) f true v) f false 1).voices =
      [(f, { noteOnVoice (setAdsr s a d su r) f v with releaseStart := true })] := by
    rw [playNote_off_voices _ _ _ hget1, hvoices1]
    simp [dictSet]
  refine ⟨?_, henv, ?_, ?_⟩
  · rw [hvoices2]
    simp [dictGet]
  · have hpos : (0:ℤ) < ⌈r * s.sampleRate⌉ :=
      Int.ceil_pos.mpr (mul_pos (lt_of_lt_of_le (by norm_num) hr1) hsr)
    omega
  · simp only [renderTickVoices, hvoices2]
    simp [henv, List.mem_replicate,
      show (noteOnVoice (setAdsr s a d su r) f v).isActive = true from rfl]

/-- Witness for C3 at a concrete input. -/
theorem c3_immediate_release_pruned_witness :
    ((1:ℚ)/100 ≤ 1/10 ∧ ((1:ℚ)/10 ≤ 5 ∧ (0:ℚ) ≤ 7/10 ∧ (7:ℚ)/10 ≤ 1) ∧
     0 < (initSynth 4).sampleRate ∧ (initSynth 4).voices = []) ∧
    (dictGet (playNote (playNote (setAdsr (initSynth 4) (1/10) (1/10) (7/10) (1/10))
        440 true 1) 440 false 1).voices 440 =
      some { noteOnVoice (setAdsr (initSynth 4) (1/10) (1/10) (7/10) (1/10)) 440 1 with
        releaseStart := true } ∧
     ((noteOnVoice (setAdsr (initSynth 4) (1/10) (1/10) (7/10) (1/10)) 440 1).envelope.getEnvelope
        3 true).1 = List.replicate 3 0 ∧
     (1 : ℤ) ≤ ⌈(1/10 : ℚ) * (initSynth 4).sampleRate⌉ ∧
     (renderTickVoices (playNote (playNote (setAdsr (initSynth 4) (1/10) (1/10) (7/10) (1/10))
        440 true 1) 440 false 1) 3).voices = []) := by
  have hsr : (0:ℚ) < (initSynth 4).sampleRate := by norm_num [initSynth]
  exact ⟨⟨by norm_num, ⟨by norm_num, by norm_num, by norm_num⟩, hsr, rfl⟩,
    c3_immediate_release_pruned (initSynth 4) (1/10) (1/10) (7/10) (1/10) 440 1 3
      (by norm_num) (by norm_num) (by norm_num) (by norm_num) (by norm_num) (by norm_num)
      (by norm_num) (by norm_num) hsr rfl⟩

/-! ### C1: oscillator phase is reset every tick (code bug) -/

/-- C1 (code bug): after a tick, the surviving voice's persisted `phase` is
still 0 (the callback never reads or advances it), and the time array used to
generate the NEXT tick's samples is identical to the previous tick's and
starts again at `t = 0` — not at the continuation time `frames/sample_rate`
(here `2/4 ≠ 0`).  The waveform slice itself is therefore also bitwise the
one of the previous tick, so consecutive buffers do not form one
phase-accurate stream. -/
theorem c1_time_argument_reset_each_tick :
    ((renderTickVoices (playNote (initSynth 4) 1 true 1) 2).voices.map
      (fun fv => fv.2.phase)) = [0] ∧
    callbackTimes (renderTickVoices (playNote (initSynth 4) 1 true 1) 2) 2 =
      callbackTimes (playNote (initSynth 4) 1 true 1) 2 ∧
    (callbackTimes (renderTickVoices (playNote (initSynth 4) 1 true 1) 2) 2).head? =
      some 0 ∧
    (2 : ℚ) / (initSynth 4).sampleRate ≠ 0 ∧
    callbackWave (renderTickVoices (playNote (initSynth 4) 1 true 1) 2) 2 1 =
      callbackWave (playNote (initSynth 4) 1 true 1) 2 1 := by
  refine ⟨?_, ?_, ?_, ?_, rfl⟩ <;> with_unfolding_all decide

/-! ### C2: square-wave sample values -/

/-- The square-wave sample at `t = 0` (the first sample of every generated
buffer) is 0: `np.sign (sin 0) = np.sign 0 = 0`. -/
theorem generate_square_at_zero : generate_square ((0:ℚ) : ℝ) ((1:ℚ) : ℝ) = 0 := by
  simp [generate_square, Real.sign_zero]

/-- C2 counterexample: the first sample of a generated square-wave buffer
(diagonal of `generate_wave` at `t = 0`, any frequency) has value 0, which is
neither +0.5 nor -0.5 — `np.sign 0` is 0, not +1 as claimed. -/
theorem c2_counterexample_sign_zero :
    (generateWave 4 1 1 "square").head? = some 0 ∧ (0:ℝ) ≠ 1/2 ∧ (0:ℝ) ≠ -(1/2) := by
  refine ⟨?_, by norm_num, by norm_num⟩
  have ht : waveTimes 4 1 = [0, 1/4, 1/2, 3/4] := by with_unfolding_all decide
  unfold generateWave
  rw [ht]
  simpa using generate_square_at_zero

/-- C2 amended: every square-wave sample lies in the three-value set
{+0.5, 0, -0.5}; a sample is 0 exactly when `sin(2π·f·t) = 0` (because
`np.sign 0 = 0`), and every sample of a generated square-wave buffer lies in
that set. -/
theorem c2_square_samples_amended (t f : ℝ) (sr freq dur : ℚ) (x : ℝ)
    (hx : x ∈ generateWave sr freq dur "square") :
    (generate_square t f = 1/2 ∨ generate_square t f = 0 ∨
      generate_square t f = -(1/2)) ∧
    (generate_square t f = 0 ↔ Real.sin (2 * Real.pi * f * t) = 0) ∧
    (x = 1/2 ∨ x = 0 ∨ x = -(1/2)) := by
  have key : ∀ u v : ℝ, generate_square u v = 1/2 ∨ generate_square u v = 0 ∨
      generate_square u v = -(1/2) := by
    intro u v
    unfold generate_square
    rcases Real.sign_apply_eq (Real.sin (2 * Real.pi * v * u)) with h | h | h <;>
      rw [h] <;> norm_num
  refine ⟨key t f, ?_, ?_⟩
  · unfold generate_square
    constructor
    · intro h
      rcases mul_eq_zero.mp h with h' | h'
      · norm_num at h'
      · exact Real.sign_eq_zero_iff.mp h'
    · intro h
      rw [h, Real.sign_zero, mul_zero]
  · unfold generateWave at hx
    obtain ⟨tq, _, hxx⟩ := List.mem_map.mp hx
    have hsq : generate_square ((tq : ℚ) : ℝ) ((freq : ℚ) : ℝ) = x := by
      simpa using hxx
    rw [← hsq]
    exact key _ _

/-- Witness for C2's amended statement: the sample 0 produced at `t = 0`. -/
theorem c2_square_samples_amended_witness :
    (0:ℝ) ∈ generateWave 4 1 1 "square" ∧
    ((generate_square 0 1 = 1/2 ∨ generate_square 0 1 = 0 ∨
       generate_square 0 1 = -(1/2)) ∧
     (generate_square 0 1 = 0 ↔ Real.sin (2 * Real.pi * 1 * 0) = 0) ∧
     ((0:ℝ) = 1/2 ∨ (0:ℝ) = 0 ∨ (0:ℝ) = -(1/2))) := by
  have ht : waveTimes 4 1 = [0, 1/4, 1/2, 3/4] := by with_unfolding_all decide
  have hmem : (0:ℝ) ∈ generateWave 4 1 1 "square" := by
    unfold generateWave
    rw [ht]
    refine List.mem_map.mpr ⟨0, by simp, ?_⟩
    simpa using generate_square_at_zero
  exact ⟨hmem, c2_square_samples_amended 0 1 4 1 1 0 hmem⟩

/-! ### C5: delay echoes all share one offset -/

/-- C5 counterexample: on the buffer `[1,0,0,0]` with `delay_samples = 1` and
`feedback = 1`, the code's delay output is `[1/2, 3/2, 0, 0]` (all three
echoes land on index 1), not the claimed `[1/2, 1/2, 1/2, 1/2]` of echoes at
offsets 1·d, 2·d, 3·d. -/
theorem c5_counterexample_same_offset_echoes :
    apply_delay 1 [1, 0, 0, 0] 1 1 = some [1/2, 3/2, 0, 0] ∧
    delaySpecEchoes 1 [1, 0, 0, 0] 1 1 = [1/2, 1/2, 1/2, 1/2] ∧
    apply_delay 1 [1, 0, 0, 0] 1 1 ≠ some (delaySpecEchoes 1 [1, 0, 0, 0] 1 1) := by
  refine ⟨?_, ?_, ?_⟩ <;> with_unfolding_all decide

/-- Pointwise collapse of the three same-offset echo passes of `apply_delay`
into a single gain `feedback + feedback² + feedback³` on the shifted buffer. -/
theorem delay_echo_collapse (fb : ℚ) (xs ys : List ℚ) :
    (listAdd (listAdd (listAdd xs (ys.map (fun a => a * fb ^ 1)))
      (ys.map (fun a => a * fb ^ 2))) (ys.map (fun a => a * fb ^ 3))).map
      (fun a => a / 2) =
    List.zipWith (fun x y => (x + y * (fb + fb ^ 2 + fb ^ 3)) / 2) xs ys := by
  induction xs generalizing ys with
  | nil => simp [listAdd]
  | cons x xt ih =>
    cases ys with
    | nil => simp [listAdd]
    | cons y yt =>
      simp only [List.map_cons, listAdd, List.zipWith_cons_cons, List.cons.injEq]
      exact ⟨by ring, ih yt⟩

/-- C5 amended: whenever `delay_samples ≥ 1` (or the buffer is empty), the
delay output is `(input + shifted·(feedback + feedback² + feedback³)) / 2`
where the single shifted copy is the input delayed by `delay_samples` — all
three echoes share that one offset. -/
theorem c5_delay_amended (sampleRate : ℚ) (audio : List ℚ) (delayTime feedback : ℚ)
    (h : 1 ≤ delaySamples sampleRate audio.length delayTime ∨ audio = []) :
    apply_delay sampleRate audio delayTime feedback =
      some (List.zipWith
        (fun x y => (x + y * (feedback + feedback ^ 2 + feedback ^ 3)) / 2)
        audio (shiftList (delaySamples sampleRate audio.length delayTime).toNat audio)) := by
  unfold apply_delay
  rw [if_pos h]
  simp only [delay_echo_collapse]

/-- Witness for C5's amended statement at a concrete input. -/
theorem c5_delay_amended_witness :
    (1 ≤ delaySamples 1 ([1, 0, 0, 0] : List ℚ).length 1 ∨
      ([1, 0, 0, 0] : List ℚ) = []) ∧
    apply_delay 1 [1, 0, 0, 0] 1 1 =
      some (List.zipWith (fun x y => (x + y * ((1:ℚ) + 1 ^ 2 + 1 ^ 3)) / 2)
        [1, 0, 0, 0] (shiftList (delaySamples 1 ([1, 0, 0, 0] : List ℚ).length 1).toNat
          [1, 0, 0, 0])) := by
  have h : 1 ≤ delaySamples 1 ([1, 0, 0, 0] : List ℚ).length 1 ∨
      ([1, 0, 0, 0] : List ℚ) = [] :=
    Or.inl (by with_unfolding_all decide)
  exact ⟨h, c5_delay_amended 1 [1, 0, 0, 0] 1 1 h⟩

/-! ### C6: tremolo time restarts at zero every buffer -/

/-- The first tremolo time coordinate of every buffer is 0. -/
theorem tremTimes_head (sr : ℚ) (n : ℕ) : (tremTimes sr n).getD 0 0 = 0 := by
  cases n with
  | zero => rfl
  | succ m =>
    simp only [tremTimes, List.range_succ_eq_map, List.map_cons]
    split <;> simp

/-- C6 counterexample: on the 2-sample buffer `[1, 1]` at `sample_rate = 4`,
`rate = 1`, `depth = 1`, the code's tremolo output at index 1 is 1/2 (its
linspace time is 1/2 s), while the claimed absolute-stream-time modulation
(`t = 1/4` s for the stream's sample 1) gives 0.  The outputs differ, so the
claimed formula does not describe the code. -/
theorem c6_counterexample_time_restart :
    (apply_tremolo 4 [1, 1] 1 1).getD 1 0 = 1/2 ∧
    (tremoloAbsoluteTime 4 0 [1, 1] 1 1).getD 1 0 = 0 ∧
    apply_tremolo 4 [1, 1] 1 1 ≠ tremoloAbsoluteTime 4 0 [1, 1] 1 1 := by
  have ht : tremTimes 4 2 = [0, 1/2] := by with_unfolding_all decide
  have ha : (apply_tremolo 4 [1, 1] 1 1).getD 1 0 = 1/2 := by
    unfold apply_tremolo
    rw [show ([1, 1] : List ℝ).length = 2 from rfl, ht]
    simp only [List.map_cons, List.map_nil, List.zipWith_cons_cons, List.zipWith_nil_right,
      List.getD_cons_succ, List.getD_cons_zero]
    rw [show (2:ℝ) * Real.pi * 1 * ((1/2 : ℚ) : ℝ) = Real.pi from by push_cast; ring,
      Real.sin_pi]
    norm_num
  have hb : (tremoloAbsoluteTime 4 0 [1, 1] 1 1).getD 1 0 = 0 := by
    unfold tremoloAbsoluteTime
    rw [show ([1, 1] : List ℝ).length = 2 from rfl,
      show List.range 2 = [0, 1] from rfl]
    simp only [List.map_cons, List.map_nil, List.getD_cons_succ, List.getD_cons_zero]
    rw [show (2:ℝ) * Real.pi * 1 * (((0 + 1 : ℕ) : ℝ) / ((4:ℚ) : ℝ)) = Real.pi / 2 from by
        push_cast; ring,
      Real.sin_pi_div_two]
    norm_num
  refine ⟨ha, hb, ?_⟩
  intro hcontra
  have := congrArg (fun l => l.getD 1 0) hcontra
  simp only at this
  rw [ha, hb] at this
  norm_num at this

/-- C6 amended: the tremolo multiplies sample `i` by
`1 − depth/2·(1 + sin(2π·rate·t_i))` where `t_i` is drawn from the
per-buffer linspace (endpoint inclusive, `t_i = i·(L/sr)/(L−1)`), and that
time coordinate restarts at 0 for every buffer — the effect keeps no
cross-buffer position. -/
theorem tremTimes_length (sampleRate : ℚ) (n : ℕ) :
    (tremTimes sampleRate n).length = n := by
  unfold tremTimes
  rw [List.length_map, List.length_range]

theorem apply_tremolo_length (sampleRate : ℚ) (audio : List ℝ) (rate depth : ℝ) :
    (apply_tremolo sampleRate audio rate depth).length = audio.length := by
  unfold apply_tremolo
  rw [List.length_zipWith, List.length_map, tremTimes_length, min_self]

theorem c6_tremolo_amended (sampleRate : ℚ) (audio : List ℝ) (rate depth : ℝ)
    (i : ℕ) (h : i < audio.length) :
    (apply_tremolo sampleRate audio rate depth).getD i 0 =
      audio.getD i 0 * (1 - depth / 2 * (1 + Real.sin (2 * Real.pi * rate *
        (((tremTimes sampleRate audio.length).getD i 0 : ℚ) : ℝ)))) ∧
    (tremTimes sampleRate audio.length).getD 0 0 = 0 := by
  have hi2 : i < (tremTimes sampleRate audio.length).length := by
    rw [tremTimes_length]
    exact h
  have hiz : i < (apply_tremolo sampleRate audio rate depth).length := by
    rw [apply_tremolo_length]
    exact h
  refine ⟨?_, tremTimes_head sampleRate audio.length⟩
  rw [List.getD_eq_getElem _ _ hiz, List.getD_eq_getElem audio 0 h,
    List.getD_eq_getElem _ 0 hi2]
  unfold apply_tremolo
  simp only [List.getElem_zipWith, List.getElem_map]

/-- Witness for C6's amended statement at a concrete input. -/
theorem c6_tremolo_amended_witness :
    0 < ([1, 1] : List ℝ).length ∧
    ((apply_tremolo 4 [1, 1] 1 1).getD 0 0 =
      ([1, 1] : List ℝ).getD 0 0 * (1 - (1:ℝ) / 2 * (1 + Real.sin (2 * Real.pi * 1 *
        (((tremTimes 4 ([1, 1] : List ℝ).length).getD 0 0 : ℚ) : ℝ)))) ∧
     (tremTimes 4 ([1, 1] : List ℝ).length).getD 0 0 = 0) := by
  exact ⟨by norm_num, c6_tremolo_amended 4 [1, 1] 1 1 0 (by norm_num)⟩

end PySynth
